import Mathlib

set_option maxHeartbeats 1000000
set_option maxRecDepth 4096

/-
Verification development for the "podcast director" Discord bot.

The embedding covers the three cores of the program:
  * the in-memory conversation log (src/conversationLog.js): append with
    whitespace rejection, the full history, the director and claim
    consumption buffers, listener fan-out, resets, and the operator edit
    entry point;
  * the per-participant voice capture pipeline (src/voiceHandler.js):
    the activeSpeakers set, the speaking-start handler, the decoder end
    handler and the max-turn-duration timeout, modelled as a labelled
    transition system over event traces;
  * the TTS playback queue (src/ttsPlayer.js): processQueue's two-stage
    silence check (poll, then grace wait, then re-check) as a small
    state machine.
-/

/-- Whether a character is in the core of the whitespace class stripped
by JS String.prototype.trim (the full class also has \v, \f and Unicode
spaces; the program only meets plain text, so the core set suffices). -/
def isWsChar (c : Char) : Bool :=
  c == ' ' || c == '\t' || c == '\n' || c == '\r'

/-- JS `String.prototype.trim`: strip leading and trailing whitespace. -/
def jsTrim (s : String) : String :=
  String.mk (((s.data.dropWhile isWsChar).reverse.dropWhile isWsChar).reverse)

/-- JS `String.prototype.toLowerCase` on the ASCII range. -/
def jsToLower (s : String) : String :=
  String.mk (s.data.map Char.toLower)

namespace ConversationLog

/-- Transcript entry as pushed by append in conversationLog.js:
`{ speaker, text: trimmed, timestamp: now, userId: opts.userId }`. -/
structure Entry where
  speaker : String
  text : String
  timestamp : Nat
  userId : Option Nat
deriving Repr, DecidableEq

/-- A registered onLogAppend callback. In JS a listener may throw; here a
listener returns either ok or an error message, and the dispatch loop in
append catches the error exactly as the try/catch in the source does. -/
def Listener : Type := Entry → Except String Unit

/-- State of the module-level mutable bindings of conversationLog.js.
JS objects pushed into several arrays are shared by reference; the
embedding makes the heap explicit: `store` holds the allocated entry
objects and `log`, `directorBuffer`, `claimBuffer` hold references
(indices) into `store`.  `append` pushes the *same* reference into `log`
and `directorBuffer`, and a reference to a freshly allocated copy into
`claimBuffer`, exactly as the source pushes `entry` twice and then a new
object literal. -/
structure LogState where
  store : List Entry
  log : List Nat
  directorBuffer : List Nat
  claimBuffer : List Nat
deriving Repr, DecidableEq

/-- Initial module state: all arrays empty. -/
def initLog : LogState := ⟨[], [], [], []⟩

/-- Dereference an entry object. -/
def getEntry (st : LogState) (r : Nat) : Option Entry := st.store[r]?

/-- Outcome of invoking one listener under the try/catch of append:
`none` when the listener returned normally, `some msg` when its error was
caught (and logged with console.warn in the source). -/
def caughtResult (e : Entry) (fn : Listener) : Option String :=
  match fn e with
  | .ok _ => none
  | .error msg => some msg

/-- Embedding of `append(speaker, text, opts)` from conversationLog.js.
`now` stands for Date.now(); `listeners` is the current content of
`logAppendListeners`.  Returns the new state together with the
per-listener caught-error log (the forEach with try/catch).  The debug
`#region agent log` block and the session-file/SRT writes in the source
are external side effects with no effect on the in-memory state and are
not modelled.  The source checks `if (!trimmed) return;`, i.e. the call
is a no-op exactly when the trimmed text is the empty string. -/
def append (listeners : List Listener) (speaker text : String)
    (userId : Option Nat) (now : Nat) (st : LogState) :
    LogState × List (Option String) :=
  let trimmed := jsTrim text
  if trimmed.isEmpty then (st, [])
  else
    let entry : Entry := ⟨speaker, trimmed, now, userId⟩
    let r := st.store.length
    let claimCopy : Entry := ⟨speaker, trimmed, now, userId⟩
    let st' : LogState :=
      { store := st.store ++ [entry, claimCopy]
        log := st.log ++ [r]
        directorBuffer := st.directorBuffer ++ [r]
        claimBuffer := st.claimBuffer ++ [r + 1] }
    (st', listeners.map (caughtResult entry))

/-- Embedding of `reset()`: `directorBuffer.length = 0`. -/
def reset (st : LogState) : LogState := { st with directorBuffer := [] }

/-- Embedding of `resetClaimBuffer()`: `claimBuffer.length = 0`. -/
def resetClaimBuffer (st : LogState) : LogState := { st with claimBuffer := [] }

/-- Embedding of `getLog()`: returns the full history (`[...log]` in the
source is a shallow copy; reading it yields the entry objects). -/
def getLog (st : LogState) : List Entry :=
  st.log.filterMap (getEntry st)

/-- Default of config.moddit.contextMessages (MODDIT_CONTEXT_MESSAGES,
default '20'). -/
def contextMessages : Nat := 20

/-- JS `array.slice(-n)` for n > 0: the last `n` elements. -/
def lastN {α : Type} (n : Nat) (l : List α) : List α :=
  l.drop (l.length - n)

/-- Shape returned by the recent-context getters: the source maps each
entry to `{ speaker, text, timestamp: new Date(timestamp).toISOString() }`;
the ISO-8601 rendering of the millisecond timestamp is kept as the raw
number here. -/
structure RecentView where
  speaker : String
  text : String
  timestamp : Nat
deriving Repr, DecidableEq

/-- View of one entry as produced by the map in the recent getters. -/
def entryView (e : Entry) : RecentView := ⟨e.speaker, e.text, e.timestamp⟩

/-- Embedding of `getRecentForDirector()`:
`directorBuffer.slice(-contextMessages).map(...)`.  The map dereferences
the shared entry objects at read time. -/
def getRecentForDirector (st : LogState) : List RecentView :=
  (lastN contextMessages st.directorBuffer).filterMap
    (fun r => (getEntry st r).map entryView)

/-- Embedding of `getRecentForClaimExtraction()`:
`claimBuffer.slice(-contextMessages).map(...)`. -/
def getRecentForClaimExtraction (st : LogState) : List RecentView :=
  (lastN contextMessages st.claimBuffer).filterMap
    (fun r => (getEntry st r).map entryView)

/-- Operation form of getRecentForDirector, recording that the source
function body only reads (`slice` and `map` allocate fresh arrays): the
state component of the result is the unmodified input state. -/
def getRecentForDirectorOp (st : LogState) : List RecentView × LogState :=
  (getRecentForDirector st, st)

/-- Patch accepted by updateEntry: optional replacement speaker and text,
as assembled by the PATCH /conversation route of dashboard.js. -/
structure Patch where
  speaker : Option String
  text : Option String
deriving Repr, DecidableEq

/-- The entry produced by applying a patch to an entry: targeted fields
replaced, untargeted fields kept. -/
def patchedEntry (patch : Patch) (e : Entry) : Entry :=
  ⟨patch.speaker.getD e.speaker, patch.text.getD e.text, e.timestamp, e.userId⟩

/-- Modelled from the spec: `updateEntry(index, {speaker?, text?})` is
exported from conversationLog.js (dashboard.js line 119 imports it and
the PATCH /conversation route calls it) but its definition is not among
the provided sources.  Per the spec it mutates the full-history entry at
`index` in place — i.e. it rewrites the fields of the shared entry object
also referenced by the director buffer — errors with "index out of range"
if not found, and returns the updated entry on success (dashboard.js
checks `result.error` and otherwise uses `result.entry`).  `index` comes
from `parseInt` and may be negative; any index not addressing a
full-history entry is "not found". -/
def updateEntry (index : Int) (patch : Patch) (st : LogState) :
    Except String Entry × LogState :=
  if index < 0 then (.error "index out of range", st)
  else
    match st.log[index.toNat]? with
    | none => (.error "index out of range", st)
    | some r =>
      match st.store[r]? with
      | none => (.error "index out of range", st)
      | some e =>
        let e' : Entry := { e with
          speaker := patch.speaker.getD e.speaker
          text := patch.text.getD e.text }
        (.ok e', { st with store := st.store.set r e' })

/-- Well-formedness of a log state: the full-history references are
distinct object references and all point into the store.  Every state
produced by appends from the initial state satisfies this. -/
def WF (st : LogState) : Prop :=
  st.log.Nodup ∧ ∀ r ∈ st.log, r < st.store.length

instance (st : LogState) : Decidable (WF st) := by
  unfold WF; infer_instance

end ConversationLog

namespace VoiceHandler

/-- Reason a capture pipeline was torn down: the decoder 'end' handler
ran (normal turn close), or the PIPELINE_MAX_MS setTimeout fired. -/
inductive CloseReason where
  | decoderEnd
  | timeout
deriving Repr, DecidableEq

/-- One capture turn: created when the speaking 'start' handler
subscribes a user, identified by a fresh id so per-turn properties can be
stated over a whole trace.  `closedBy = none` while the pipeline is live
(subscription piped into the decoder, timeout armed). -/
structure Turn where
  tid : Nat
  user : Nat
  closedBy : Option CloseReason
deriving Repr, DecidableEq

/-- Configuration read by voiceHandler.js: the bot's own user id
(guild.client.user.id), the set of other bot members of the guild,
config.discord.hostUserId and config.discord.directorTriggerPhrases. -/
structure VoiceCfg where
  botUserId : Option Nat
  bots : List Nat
  hostUserId : Option Nat
  triggerPhrases : List String
deriving Repr, DecidableEq

/-- Module state of voiceHandler.js: the `activeSpeakers` set (a JS Set
of user ids, kept here as a duplicate-free list) plus the history of
capture turns created so far and a fresh-id counter. -/
structure VoiceState where
  activeSpeakers : List Nat
  turns : List Turn
  nextTid : Nat
deriving Repr, DecidableEq

/-- Initial module state: `activeSpeakers` empty, no turn yet. -/
def initVoice : VoiceState := ⟨[], [], 0⟩

/-- Embedding of `isAnyoneSpeaking()`: `activeSpeakers.size > 0`. -/
def isAnyoneSpeaking (st : VoiceState) : Bool :=
  !st.activeSpeakers.isEmpty

/-- The events a voice-receive session processes.  `speakStart u` is the
receiver's speaking 'start' event.  `decoderEnd u hasAudio transcript
displayName` is the decoder 'end' handler for u's live pipeline running
to completion: `hasAudio` is `chunks.length > 0`, `transcript` the result
of the awaited transcribeBuffer call (none = null), `displayName` the
guild member's display name / username if resolvable.  `timeoutFire u`
is the PIPELINE_MAX_MS setTimeout callback for u's live pipeline.  The
two close events address the currently live pipeline only: the 'end'
handler clears the timeout, the timeout handler destroys the
subscription feeding the decoder (so the decoder never ends), a one-shot
timer cannot fire twice and a stream emits 'end' at most once — both
facts are encoded by the events being no-ops when no pipeline is live. -/
inductive VEvent where
  | speakStart (u : Nat)
  | decoderEnd (u : Nat) (hasAudio : Bool) (transcript : Option String)
      (displayName : Option String)
  | timeoutFire (u : Nat)
deriving Repr, DecidableEq

/-- Observable actions emitted by the handlers. -/
inductive VAction where
  | removedFromSet (u : Nat) (tid : Nat) (reason : CloseReason)
  | subscriptionDestroyed (tid : Nat)
  | appended (speaker : String) (text : String) (u : Nat)
  | directorTriggered (u : Nat)
deriving Repr, DecidableEq

/-- The live (not yet closed) turn of a user, if any. -/
def findOpen (turns : List Turn) (u : Nat) : Option Turn :=
  turns.find? (fun t => t.user == u && t.closedBy == none)

/-- Mark the turn with the given id closed. -/
def closeTurn (turns : List Turn) (tid : Nat) (r : CloseReason) : List Turn :=
  turns.map (fun t => if t.tid == tid then { t with closedBy := some r } else t)

/-- Normalization applied to a host line before the trigger-phrase check:
`text.trim().toLowerCase().replace(/[.!?]+$/, '')`. -/
def normalizeTrigger (s : String) : String :=
  String.mk
    (((jsToLower (jsTrim s)).data.reverse.dropWhile
        (fun c => c == '.' || c == '!' || c == '?')).reverse)

/-- The max-turn-duration guard: `PIPELINE_MAX_MS = 45_000`. -/
def PIPELINE_MAX_MS : Nat := 45000

/-- The transcription/append/trigger tail of the decoder 'end' handler
(everything after the SpeakingSet delete and subscription destroy): if
chunks were collected and the awaited transcribeBuffer result is truthy
text, append with the resolved speaker label, then fire the director
suggestion when the speaker is the configured host, the trigger-phrase
list is non-empty and the normalized text is contained in it. -/
def endActions (cfg : VoiceCfg) (u : Nat) (hasAudio : Bool)
    (transcript : Option String) (displayName : Option String) : List VAction :=
  if !hasAudio then []
  else
    match transcript with
    | none => []
    | some text =>
      if text == "" then []
      else
        let speaker :=
          if cfg.hostUserId == some u then "HOST"
          else displayName.getD (toString u)
        if cfg.hostUserId == some u && !cfg.triggerPhrases.isEmpty
            && cfg.triggerPhrases.contains (normalizeTrigger text)
        then [.appended speaker text u, .directorTriggered u]
        else [.appended speaker text u]

/-- One step of the voice-receive handlers.

`speakStart`: returns unchanged if the speaker is the bot itself, a bot
member, or already in `activeSpeakers` (duplicate start ignored);
otherwise adds the user to `activeSpeakers` and opens a fresh turn
(subscribe, decoder, pipe, arm timeout).

`timeoutFire`: the PIPELINE_MAX_MS callback — deletes the user from
`activeSpeakers` and destroys the subscription.  It never transcribes or
appends.

`decoderEnd`: the decoder 'end' handler — clears the timeout, deletes
the user from `activeSpeakers`, destroys the subscription; then, if any
chunks were collected and the transcription returned truthy text,
resolves the speaker label ('HOST' for the configured host, else display
name falling back to the user id) and appends; finally, if the speaker
is the host, the trigger-phrase list is non-empty and the normalized
text is contained in it, fires the director-suggestion request. -/
def vstep (cfg : VoiceCfg) (st : VoiceState) : VEvent → VoiceState × List VAction
  | .speakStart u =>
    if cfg.botUserId == some u then (st, [])
    else if cfg.bots.contains u then (st, [])
    else if st.activeSpeakers.contains u then (st, [])
    else ({ activeSpeakers := u :: st.activeSpeakers,
            turns := st.turns ++ [⟨st.nextTid, u, none⟩],
            nextTid := st.nextTid + 1 }, [])
  | .timeoutFire u =>
    match findOpen st.turns u with
    | none => (st, [])
    | some t =>
      ({ st with activeSpeakers := st.activeSpeakers.erase u,
                 turns := closeTurn st.turns t.tid .timeout },
       [.removedFromSet u t.tid .timeout, .subscriptionDestroyed t.tid])
  | .decoderEnd u hasAudio transcript displayName =>
    match findOpen st.turns u with
    | none => (st, [])
    | some t =>
      ({ st with activeSpeakers := st.activeSpeakers.erase u,
                 turns := closeTurn st.turns t.tid .decoderEnd },
       [.removedFromSet u t.tid .decoderEnd, .subscriptionDestroyed t.tid]
         ++ endActions cfg u hasAudio transcript displayName)

/-- Run a trace of events from a state, accumulating emitted actions. -/
def runFrom (cfg : VoiceCfg) : VoiceState → List VAction → List VEvent →
    VoiceState × List VAction
  | st, acts, [] => (st, acts)
  | st, acts, e :: evs =>
    let r := vstep cfg st e
    runFrom cfg r.1 (acts ++ r.2) evs

/-- Run a trace of events from the initial module state. -/
def runTrace (cfg : VoiceCfg) (evs : List VEvent) : VoiceState × List VAction :=
  runFrom cfg initVoice [] evs

/-- Whether an action is a SpeakingSet removal for the given turn. -/
def isRemoval (tid : Nat) : VAction → Bool
  | .removedFromSet _ tid' _ => tid' == tid
  | _ => false

/-- Number of SpeakingSet removals recorded for a turn in an action log. -/
def removalCount (acts : List VAction) (tid : Nat) : Nat :=
  (acts.filter (isRemoval tid)).length

/-- Trace invariant of the voice-receive handlers, tying the module
state to the action log emitted so far: turn ids are fresh and distinct,
`activeSpeakers` is a set holding exactly the users with a live turn,
each user has at most one live turn, every closed turn has been removed
from the SpeakingSet exactly once and every live turn not at all, and no
removal is recorded for a turn id not yet allocated. -/
structure Inv (st : VoiceState) (acts : List VAction) : Prop where
  tidBound : ∀ t ∈ st.turns, t.tid < st.nextTid
  tidNodup : (st.turns.map Turn.tid).Nodup
  activeNodup : st.activeSpeakers.Nodup
  activeIff : ∀ u, u ∈ st.activeSpeakers ↔
    ∃ t ∈ st.turns, t.user = u ∧ t.closedBy = none
  openUnique : ∀ t1 ∈ st.turns, ∀ t2 ∈ st.turns,
    t1.user = t2.user → t1.closedBy = none → t2.closedBy = none → t1 = t2
  removals : ∀ t ∈ st.turns,
    removalCount acts t.tid = if t.closedBy.isSome then 1 else 0
  removalFresh : ∀ tid, st.nextTid ≤ tid → removalCount acts tid = 0

end VoiceHandler

namespace TtsPlayer

/-- A queued playback item: `{ type: 'speak', text, options }` or
`{ type: 'mp3', filePath }`. -/
inductive QItem where
  | speak (text : String) (voiceId : Option String)
  | mp3 (filePath : String)
deriving Repr, DecidableEq

/-- State of ttsPlayer.js: whether a connection is registered, whether
the audio player is Idle, the FIFO `ttsQueue`, and whether a
SILENCE_GRACE_MS callback is currently armed. -/
structure TTSState where
  hasConnection : Bool
  playerIdle : Bool
  queue : List QItem
  gracePending : Bool
deriving Repr, DecidableEq

/-- Observable actions of the scheduler. -/
inductive TAction where
  | pollScheduled
  | graceScheduled
  | played (it : QItem)
  | dropped (it : QItem)
deriving Repr, DecidableEq

/-- Poll interval while someone is speaking: `POLL_MS = 400`. -/
def POLL_MS : Nat := 400

/-- Silence-confirmation grace period: `SILENCE_GRACE_MS = 500`. -/
def SILENCE_GRACE_MS : Nat := 500

/-- Embedding of the synchronous part of `processQueue()`.  `speaking`
is the value of `isAnyoneSpeaking()` at this wake.  Returns unchanged if
there is no connection/player or the queue is empty, or the player is
not Idle.  If someone is speaking, reschedules a poll after POLL_MS and
returns without touching the queue.  Otherwise arms the SILENCE_GRACE_MS
callback (still without touching the queue). -/
def processQueue (speaking : Bool) (s : TTSState) : TTSState × List TAction :=
  if !s.hasConnection || s.queue.isEmpty then (s, [])
  else if !s.playerIdle then (s, [])
  else if speaking then (s, [.pollScheduled])
  else ({ s with gracePending := true }, [.graceScheduled])

/-- Embedding of the body of the SILENCE_GRACE_MS setTimeout inside
`processQueue()`.  `speaking` is the re-read of `isAnyoneSpeaking()`
after the grace wait; `synthOk` models whether getTTSStream returned a
stream for a speak item; `fileExists` models the fs.existsSync check for
an mp3 item.  Only here is the head item shifted; on ElevenLabs failure
or a missing file the item is dropped and the source immediately calls
processQueue() again (a subsequent wake event). -/
def graceCallback (speaking : Bool) (synthOk : Bool) (fileExists : Bool)
    (s : TTSState) : TTSState × List TAction :=
  let s0 := { s with gracePending := false }
  if speaking then (s0, [.pollScheduled])
  else
    match s0.queue with
    | [] => (s0, [])
    | it :: rest =>
      match it with
      | .speak _ _ =>
        if synthOk then ({ s0 with queue := rest, playerIdle := false }, [.played it])
        else ({ s0 with queue := rest }, [.dropped it])
      | .mp3 _ =>
        if fileExists then ({ s0 with queue := rest, playerIdle := false }, [.played it])
        else ({ s0 with queue := rest }, [.dropped it])

/-- Scheduler events: a wake of processQueue (item pushed by speak or
playLocalMp3, or the player just became Idle), or an armed grace timer
firing.  A grace event with no armed timer is a no-op. -/
inductive TEvent where
  | wake (speaking : Bool)
  | grace (speaking : Bool) (synthOk : Bool) (fileExists : Bool)
deriving Repr, DecidableEq

/-- One scheduler step. -/
def tstep (s : TTSState) : TEvent → TTSState × List TAction
  | .wake speaking => processQueue speaking s
  | .grace speaking synthOk fileExists =>
    if s.gracePending then graceCallback speaking synthOk fileExists s
    else (s, [])

end TtsPlayer

namespace ConversationLog

/-- Indexing into a filterMap whose function is total on the list agrees
with indexing the underlying list and then applying the function. -/
theorem filterMap_getElem_total {α β : Type} (l : List α) (f : α → Option β)
    (hval : ∀ a ∈ l, (f a).isSome) (j : Nat) :
    (l.filterMap f)[j]? = (l[j]?).bind f := by
  induction l generalizing j with
  | nil => simp
  | cons a l ih =>
    have ha : (f a).isSome := hval a (List.mem_cons_self a l)
    obtain ⟨b, hb⟩ := Option.isSome_iff_exists.mp ha
    have hrest : ∀ x ∈ l, (f x).isSome := fun x hx => hval x (List.mem_cons_of_mem a hx)
    cases j with
    | zero => simp [List.filterMap_cons, hb]
    | succ j => simp [List.filterMap_cons, hb, ih hrest]

/-- Under well-formedness, indexing the full log dereferences the
reference at the same index. -/
theorem getLog_getElem (st : LogState) (hval : ∀ r ∈ st.log, r < st.store.length)
    (j : Nat) : (getLog st)[j]? = (st.log[j]?).bind (getEntry st) := by
  apply filterMap_getElem_total
  intro r hr
  simp [getEntry, List.getElem?_eq_getElem (hval r hr)]

/-- In a nodup list, distinct positions hold distinct elements. -/
theorem nodup_getElem_ne {α : Type} (l : List α) (hnd : l.Nodup)
    {i j : Nat} (hij : i ≠ j) {a b : α} (ha : l[i]? = some a)
    (hb : l[j]? = some b) : a ≠ b := by
  intro hab
  subst hab
  have hi : i < l.length := by
    by_contra h
    rw [List.getElem?_eq_none (Nat.le_of_not_lt h)] at ha
    exact Option.noConfusion ha
  exact hij (List.getElem?_inj hi hnd (ha.trans hb.symm))

/-- The state part of an append with non-empty trimmed text. -/
theorem append_state_pos (listeners : List Listener) (speaker text : String)
    (userId : Option Nat) (now : Nat) (st : LogState)
    (htext : (jsTrim text).isEmpty = false) :
    (append listeners speaker text userId now st).1 =
      { store := st.store ++ [⟨speaker, jsTrim text, now, userId⟩,
                              ⟨speaker, jsTrim text, now, userId⟩]
        log := st.log ++ [st.store.length]
        directorBuffer := st.directorBuffer ++ [st.store.length]
        claimBuffer := st.claimBuffer ++ [st.store.length + 1] } := by
  simp [append, htext]

/-- Dereferencing an old reference is unaffected by growing the store. -/
theorem getEntry_store_grow (st : LogState) (es : List Entry) (r : Nat)
    (h : r < st.store.length) (st' : LogState) (hs : st'.store = st.store ++ es) :
    getEntry st' r = getEntry st r := by
  simp [getEntry, hs, List.getElem?_append_left h]

/-- Appending an entry with non-empty trimmed text extends the full log
by exactly that entry at the end. -/
theorem getLog_append_pos (listeners : List Listener) (speaker text : String)
    (userId : Option Nat) (now : Nat) (st : LogState)
    (htext : (jsTrim text).isEmpty = false)
    (hval : ∀ r ∈ st.log, r < st.store.length) :
    getLog (append listeners speaker text userId now st).1
      = getLog st ++ [⟨speaker, jsTrim text, now, userId⟩] := by
  rw [append_state_pos listeners speaker text userId now st htext]
  show (st.log ++ [st.store.length]).filterMap _ = _
  rw [List.filterMap_append]
  congr 1
  · apply List.filterMap_congr
    intro r hr
    exact getEntry_store_grow st _ r (hval r hr) _ rfl
  · simp [getEntry, List.getElem?_append_right (Nat.le_refl st.store.length)]

/-- The last element of a slice(-n) window over a buffer ending in a
reference that dereferences is that reference's view. -/
theorem filterMap_lastN_concat {α β : Type} (n : Nat) (hn : 1 ≤ n)
    (l : List α) (a : α) (g : α → Option β) (v : β) (hg : g a = some v) :
    ((lastN n (l ++ [a])).filterMap g).getLast? = some v := by
  have hlen : (l ++ [a]).length - n ≤ l.length := by
    simp only [List.length_append, List.length_cons, List.length_nil]
    omega
  unfold lastN
  rw [List.drop_append_of_le_length hlen, List.filterMap_append]
  simp [List.filterMap_cons, hg, List.getLast?_concat]

end ConversationLog

open ConversationLog VoiceHandler TtsPlayer

/-- Claim C5: for every call to append, if the text is non-empty after
trimming, the full history length increases by exactly one and the new
entry is the last one returned by getLog; if the text is empty or
whitespace-only after trimming, the call is a no-op that leaves the
state unchanged. -/
theorem log_append_spec (listeners : List Listener) (speaker text : String)
    (userId : Option Nat) (now : Nat) (st : LogState) :
    ((jsTrim text).isEmpty = false → WF st →
      (getLog (append listeners speaker text userId now st).1).length
        = (getLog st).length + 1 ∧
      (getLog (append listeners speaker text userId now st).1).getLast?
        = some ⟨speaker, jsTrim text, now, userId⟩) ∧
    ((jsTrim text).isEmpty = true →
      append listeners speaker text userId now st = (st, [])) := by
  constructor
  · intro htext hwf
    rw [getLog_append_pos listeners speaker text userId now st htext hwf.2]
    constructor
    · simp
    · exact List.getLast?_concat _
  · intro htext
    simp [append, htext]

/-- Witness for C5 at a concrete input: appending " hi " to the empty
log grows it to length 1 with entry ("A", "hi", 5), and appending
whitespace-only text is a no-op. -/
theorem log_append_spec_witness :
    ((getLog (append [] "A" " hi " none 5 initLog).1).length
        = (getLog initLog).length + 1 ∧
      (getLog (append [] "A" " hi " none 5 initLog).1).getLast?
        = some ⟨"A", "hi", 5, none⟩) ∧
    append [] "A" "   " none 5 initLog = (initLog, []) := by
  have h1 := (log_append_spec [] "A" " hi " none 5 initLog).1 (by decide) (by decide)
  have h2 := (log_append_spec [] "A" "   " none 5 initLog).2 (by decide)
  refine ⟨⟨h1.1, ?_⟩, h2⟩
  rw [h1.2]
  decide

/-- Claim C8: after an append, reading the director window returns it without
mutating any state, resetting the director window and reading again
yields an empty window (no new entries arrived between the reads), and
the reset touches only the director buffer. -/
theorem log_director_reset_idem (listeners : List Listener)
    (speaker text : String) (userId : Option Nat) (now : Nat) (st : LogState)
    (htext : (jsTrim text).isEmpty = false) :
    (getRecentForDirectorOp (append listeners speaker text userId now st).1).2
      = (append listeners speaker text userId now st).1 ∧
    getRecentForDirector
        (reset (getRecentForDirectorOp
          (append listeners speaker text userId now st).1).2) = [] ∧
    (reset (append listeners speaker text userId now st).1).log
      = (append listeners speaker text userId now st).1.log ∧
    (reset (append listeners speaker text userId now st).1).claimBuffer
      = (append listeners speaker text userId now st).1.claimBuffer ∧
    (reset (append listeners speaker text userId now st).1).store
      = (append listeners speaker text userId now st).1.store := by
  refine ⟨rfl, ?_, rfl, rfl, rfl⟩
  simp [getRecentForDirectorOp, getRecentForDirector, reset, lastN]

/-- Witness for C8 at a concrete input: after appending ("A", " hi ") to
the empty log, reading, resetting and re-reading the director window
returns the empty window. -/
theorem log_director_reset_idem_witness :
    (getRecentForDirectorOp (append [] "A" " hi " none 5 initLog).1).2
      = (append [] "A" " hi " none 5 initLog).1 ∧
    getRecentForDirector
        (reset (getRecentForDirectorOp (append [] "A" " hi " none 5 initLog).1).2)
      = [] :=
  let h := log_director_reset_idem [] "A" " hi " none 5 initLog (by decide)
  ⟨h.1, h.2.1⟩

/-- Claim C9: listener fan-out on append: every registered listener is invoked
with the new entry and contributes its own outcome slot, an error thrown
by one listener is caught (surfacing only as a logged warning), delivery
to the listeners after it is exactly what it would have been anyway, and
the writer's state transition does not depend on the listeners at all. -/
theorem log_listener_isolation (speaker text : String) (userId : Option Nat)
    (now : Nat) (st : LogState) (ls1 ls2 : List Listener) (f : Listener)
    (m : String) (htext : (jsTrim text).isEmpty = false)
    (hf : f ⟨speaker, jsTrim text, now, userId⟩ = .error m) :
    (append (ls1 ++ f :: ls2) speaker text userId now st).2
      = ls1.map (caughtResult ⟨speaker, jsTrim text, now, userId⟩)
        ++ some m :: ls2.map (caughtResult ⟨speaker, jsTrim text, now, userId⟩) ∧
    ((append (ls1 ++ f :: ls2) speaker text userId now st).2).length
      = ls1.length + 1 + ls2.length ∧
    (append (ls1 ++ f :: ls2) speaker text userId now st).1
      = (append [] speaker text userId now st).1 := by
  refine ⟨?_, ?_, ?_⟩
  · simp [append, htext, caughtResult, hf]
  · simp [append, htext]
    omega
  · simp [append, htext]

/-- Witness for C9 at a concrete input: a throwing listener between two
well-behaved listeners yields the outcome slots [none, some "boom",
none] and the same log state as having no listeners at all. -/
theorem log_listener_isolation_witness :
    (append [fun _ => Except.ok (), fun _ => Except.error "boom",
             fun _ => Except.ok ()] "A" " hi " none 5 initLog).2
      = [none, some "boom", none] ∧
    (append [fun _ => Except.ok (), fun _ => Except.error "boom",
             fun _ => Except.ok ()] "A" " hi " none 5 initLog).1
      = (append [] "A" " hi " none 5 initLog).1 := by
  have h := log_listener_isolation "A" " hi " none 5 initLog
    [fun _ => Except.ok ()] [fun _ => Except.ok ()]
    (fun _ => Except.error "boom") "boom" (by decide) rfl
  exact ⟨h.1.trans rfl, h.2.2⟩

/-- Claim C7: on a successful append, the full history and the director buffer
receive the very same entry object while the claim buffer receives an
independently constructed copy: an in-place edit of the appended history
entry (here via updateEntry targeting its index) is visible through
getRecentForDirector but not through getRecentForClaimExtraction. -/
theorem log_append_aliasing (listeners : List Listener)
    (speaker text newText : String) (userId : Option Nat) (now : Nat)
    (st : LogState) (htext : (jsTrim text).isEmpty = false) :
    (updateEntry (st.log.length : Int) ⟨none, some newText⟩
        (append listeners speaker text userId now st).1).1
      = .ok ⟨speaker, newText, now, userId⟩ ∧
    (getRecentForDirector
        (updateEntry (st.log.length : Int) ⟨none, some newText⟩
          (append listeners speaker text userId now st).1).2).getLast?
      = some ⟨speaker, newText, now⟩ ∧
    (getRecentForClaimExtraction
        (updateEntry (st.log.length : Int) ⟨none, some newText⟩
          (append listeners speaker text userId now st).1).2).getLast?
      = some ⟨speaker, jsTrim text, now⟩ := by
  have hstate := append_state_pos listeners speaker text userId now st htext
  rw [hstate]
  have hnn : ¬((st.log.length : Int) < 0) := Int.not_lt.mpr (Int.natCast_nonneg _)
  have htn : ((st.log.length : Int)).toNat = st.log.length := Int.toNat_natCast _
  have hlog : (st.log ++ [st.store.length])[st.log.length]? = some st.store.length := by
    rw [List.getElem?_append_right (Nat.le_refl _)]
    simp
  have hstore : (st.store ++ [(⟨speaker, jsTrim text, now, userId⟩ : Entry),
      ⟨speaker, jsTrim text, now, userId⟩])[st.store.length]? =
      some ⟨speaker, jsTrim text, now, userId⟩ := by
    rw [List.getElem?_append_right (Nat.le_refl _)]
    simp
  have hupd : updateEntry (st.log.length : Int) ⟨none, some newText⟩
      { store := st.store ++ [(⟨speaker, jsTrim text, now, userId⟩ : Entry),
                              ⟨speaker, jsTrim text, now, userId⟩]
        log := st.log ++ [st.store.length]
        directorBuffer := st.directorBuffer ++ [st.store.length]
        claimBuffer := st.claimBuffer ++ [st.store.length + 1] }
      = (Except.ok ⟨speaker, newText, now, userId⟩,
         { store := (st.store ++ [(⟨speaker, jsTrim text, now, userId⟩ : Entry),
                                  ⟨speaker, jsTrim text, now, userId⟩]).set
                      st.store.length ⟨speaker, newText, now, userId⟩
           log := st.log ++ [st.store.length]
           directorBuffer := st.directorBuffer ++ [st.store.length]
           claimBuffer := st.claimBuffer ++ [st.store.length + 1] }) := by
    simp only [updateEntry, if_neg hnn, htn, hlog, hstore]
    rfl
  rw [hupd]
  refine ⟨rfl, ?_, ?_⟩
  · unfold getRecentForDirector
    apply filterMap_lastN_concat contextMessages (by decide)
    have hset : ((st.store ++ [(⟨speaker, jsTrim text, now, userId⟩ : Entry),
        ⟨speaker, jsTrim text, now, userId⟩]).set st.store.length
        ⟨speaker, newText, now, userId⟩)[st.store.length]?
        = some ⟨speaker, newText, now, userId⟩ := by
      rw [List.getElem?_set_self]
      simp
    simp only [getEntry]
    rw [hset]
    rfl
  · unfold getRecentForClaimExtraction
    apply filterMap_lastN_concat contextMessages (by decide)
    have hset : ((st.store ++ [(⟨speaker, jsTrim text, now, userId⟩ : Entry),
        ⟨speaker, jsTrim text, now, userId⟩]).set st.store.length
        ⟨speaker, newText, now, userId⟩)[st.store.length + 1]?
        = some ⟨speaker, jsTrim text, now, userId⟩ := by
      rw [List.getElem?_set_ne (Nat.ne_of_lt (Nat.lt_succ_self _))]
      rw [List.getElem?_append_right (Nat.le_succ_of_le (Nat.le_refl _))]
      simp
    simp only [getEntry]
    rw [hset]
    rfl

/-- Witness for C7 at a concrete input: append ("A", "hello") to the
empty log, then edit the entry's text to "edited" in place; the director
window shows "edited", the claim window still shows "hello". -/
theorem log_append_aliasing_witness :
    (getRecentForDirector
        (updateEntry ((initLog.log.length : Nat) : Int) ⟨none, some "edited"⟩
          (append [] "A" "hello" none 7 initLog).1).2).getLast?
      = some ⟨"A", "edited", 7⟩ ∧
    (getRecentForClaimExtraction
        (updateEntry ((initLog.log.length : Nat) : Int) ⟨none, some "edited"⟩
          (append [] "A" "hello" none 7 initLog).1).2).getLast?
      = some ⟨"A", "hello", 7⟩ := by
  have h := log_append_aliasing [] "A" "hello" "edited" none 7 initLog (by decide)
  exact ⟨h.2.1, h.2.2.trans (by decide)⟩

/-- Claim C6: updateEntry at a valid index changes only the targeted fields of
the addressed entry — every other full-history entry, the untargeted
fields and all buffers are unchanged — and returns the updated entry;
at an invalid index (negative or beyond the log) it returns the typed
error "index out of range" and leaves the state, hence the log's length
and content, unchanged.  The embedding is a total function, so no index
crashes it. -/
theorem log_updateEntry_spec (st : LogState) (index : Int) (patch : Patch) :
    (∀ e : Entry, WF st → 0 ≤ index → (getLog st)[index.toNat]? = some e →
      (updateEntry index patch st).1
        = .ok ⟨patch.speaker.getD e.speaker, patch.text.getD e.text,
               e.timestamp, e.userId⟩ ∧
      getLog (updateEntry index patch st).2
        = (getLog st).set index.toNat
            ⟨patch.speaker.getD e.speaker, patch.text.getD e.text,
             e.timestamp, e.userId⟩ ∧
      (updateEntry index patch st).2.log = st.log ∧
      (updateEntry index patch st).2.directorBuffer = st.directorBuffer ∧
      (updateEntry index patch st).2.claimBuffer = st.claimBuffer) ∧
    ((index < 0 ∨ st.log.length ≤ index.toNat) →
      updateEntry index patch st = (.error "index out of range", st)) := by
  constructor
  · intro e hwf hpos hidx
    obtain ⟨hnd, hval⟩ := hwf
    have h2 : (st.log[index.toNat]?).bind (getEntry st) = some e :=
      (getLog_getElem st hval index.toNat).symm.trans hidx
    cases hr : st.log[index.toNat]? with
    | none =>
      rw [hr] at h2
      simp at h2
    | some r =>
      rw [hr] at h2
      simp only [Option.some_bind] at h2
      have hneg : ¬ index < 0 := Int.not_lt.mpr hpos
      have hstore : st.store[r]? = some e := h2
      have hrmem : r ∈ st.log := by
        obtain ⟨hlt, hget⟩ := List.getElem?_eq_some.mp hr
        exact hget ▸ List.getElem_mem hlt
      have hrlt : r < st.store.length := hval r hrmem
      have hupd : updateEntry index patch st
          = (.ok (patchedEntry patch e),
             { st with store := st.store.set r (patchedEntry patch e) }) := by
        simp only [updateEntry, if_neg hneg, hr, hstore]
        rfl
      rw [hupd]
      refine ⟨rfl, ?_, rfl, rfl, rfl⟩
      have hval2 : ∀ r0 ∈ st.log,
          r0 < (st.store.set r (patchedEntry patch e)).length := by
        simpa [List.length_set] using hval
      apply List.ext_getElem?
      intro j
      have hLHS := getLog_getElem
        { st with store := st.store.set r (patchedEntry patch e) } hval2 j
      rw [hLHS]
      by_cases hj : j = index.toNat
      · subst hj
        rw [hr]
        simp only [Option.some_bind]
        have hidxlt : index.toNat < (getLog st).length :=
          (List.getElem?_eq_some.mp hidx).1
        rw [List.getElem?_set_self hidxlt]
        simp [getEntry, List.getElem?_set_self hrlt, patchedEntry]
      · rw [List.getElem?_set_ne (fun h => hj h.symm)]
        rw [getLog_getElem st hval j]
        cases hr2 : st.log[j]? with
        | none => simp
        | some r2 =>
          simp only [Option.some_bind]
          have hne : r2 ≠ r :=
            nodup_getElem_ne st.log hnd hj hr2 hr
          simp [getEntry, List.getElem?_set_ne (fun h => hne h.symm)]
  · intro h
    by_cases hneg : index < 0
    · simp [updateEntry, hneg]
    · rcases h with h | h
      · exact absurd h hneg
      · have hnone : st.log[index.toNat]? = none := List.getElem?_eq_none h
        simp [updateEntry, hneg, hnone]

/-- Witness for C6 at a concrete input: on a one-entry log, updating
index 0's speaker to "B" changes only that field, and index 5 (and -1)
return the typed error and leave the state unchanged. -/
theorem log_updateEntry_spec_witness :
    (updateEntry 0 ⟨some "B", none⟩ (append [] "A" "hi" none 3 initLog).1).1
      = .ok ⟨"B", "hi", 3, none⟩ ∧
    getLog (updateEntry 0 ⟨some "B", none⟩ (append [] "A" "hi" none 3 initLog).1).2
      = [⟨"B", "hi", 3, none⟩] ∧
    updateEntry 5 ⟨some "B", none⟩ (append [] "A" "hi" none 3 initLog).1
      = (.error "index out of range", (append [] "A" "hi" none 3 initLog).1) ∧
    updateEntry (-1) ⟨some "B", none⟩ (append [] "A" "hi" none 3 initLog).1
      = (.error "index out of range", (append [] "A" "hi" none 3 initLog).1) := by
  have hv := (log_updateEntry_spec (append [] "A" "hi" none 3 initLog).1 0
    ⟨some "B", none⟩).1 ⟨"A", "hi", 3, none⟩ (by decide) (by decide) (by decide)
  have hi5 := (log_updateEntry_spec (append [] "A" "hi" none 3 initLog).1 5
    ⟨some "B", none⟩).2 (by decide)
  have hin := (log_updateEntry_spec (append [] "A" "hi" none 3 initLog).1 (-1)
    ⟨some "B", none⟩).2 (by decide)
  exact ⟨hv.1, hv.2.1.trans (by decide), hi5, hin⟩

namespace VoiceHandler

/-- Removal counts add up over concatenated action logs. -/
theorem removalCount_append (l1 l2 : List VAction) (tid : Nat) :
    removalCount (l1 ++ l2) tid = removalCount l1 tid + removalCount l2 tid := by
  simp [removalCount, List.filter_append]

/-- The transcription/append/trigger tail emits no SpeakingSet removal. -/
theorem endActions_no_removal (cfg : VoiceCfg) (u : Nat) (hasAudio : Bool)
    (transcript : Option String) (displayName : Option String) (tid : Nat) :
    removalCount (endActions cfg u hasAudio transcript displayName) tid = 0 := by
  unfold endActions
  repeat' split
  all_goals rfl

/-- Closing a turn preserves the turn ids. -/
theorem closeTurn_map_tid (turns : List Turn) (tid : Nat) (r : CloseReason) :
    (closeTurn turns tid r).map Turn.tid = turns.map Turn.tid := by
  unfold closeTurn
  rw [List.map_map]
  apply List.map_congr_left
  intro t ht
  by_cases h : t.tid = tid <;> simp [h]

/-- Membership in a closed turn list comes from membership before. -/
theorem mem_closeTurn {turns : List Turn} {tid : Nat} {r : CloseReason}
    {t' : Turn} : t' ∈ closeTurn turns tid r ↔
      ∃ t ∈ turns,
        t' = if t.tid == tid then { t with closedBy := some r } else t := by
  unfold closeTurn
  rw [List.mem_map]
  constructor
  · rintro ⟨t, ht, hf⟩
    exact ⟨t, ht, hf.symm⟩
  · rintro ⟨t, ht, hf⟩
    exact ⟨t, ht, hf.symm⟩

/-- Distinct turn ids identify turns. -/
theorem tid_inj {turns : List Turn} (hnd : (turns.map Turn.tid).Nodup)
    {t1 t2 : Turn} (h1 : t1 ∈ turns) (h2 : t2 ∈ turns)
    (h : t1.tid = t2.tid) : t1 = t2 :=
  List.inj_on_of_nodup_map hnd h1 h2 h

/-- What a successful findOpen yields: a member turn of that user that is
still live. -/
theorem findOpen_some {turns : List Turn} {u : Nat} {t : Turn}
    (h : findOpen turns u = some t) :
    t ∈ turns ∧ t.user = u ∧ t.closedBy = none := by
  refine ⟨List.mem_of_find?_eq_some h, ?_⟩
  have hp := List.find?_some h
  simpa using hp

/-- Closing the live turn of a user preserves the trace invariant, for
any tail of emitted actions that contains no SpeakingSet removal. -/
theorem inv_close (st : VoiceState) (acts : List VAction) (u : Nat) (t : Turn)
    (reason : CloseReason) (extra : List VAction)
    (hInv : Inv st acts) (hfind : findOpen st.turns u = some t)
    (hextra : ∀ tid, removalCount extra tid = 0) :
    Inv { st with activeSpeakers := st.activeSpeakers.erase u,
                  turns := closeTurn st.turns t.tid reason }
        (acts ++ ([.removedFromSet u t.tid reason,
                   .subscriptionDestroyed t.tid] ++ extra)) := by
  obtain ⟨htmem, htuser, htopen⟩ := findOpen_some hfind
  obtain ⟨tidBound, tidNodup, activeNodup, activeIff, openUnique,
    removals, removalFresh⟩ := hInv
  have httid : t.tid < st.nextTid := tidBound t htmem
  constructor
  · -- tidBound
    intro t' ht'
    rw [mem_closeTurn] at ht'
    obtain ⟨t2, ht2, rfl⟩ := ht'
    by_cases h : t2.tid == t.tid <;> simp [h] <;> exact tidBound t2 ht2
  · -- tidNodup
    show ((closeTurn st.turns t.tid reason).map Turn.tid).Nodup
    rw [closeTurn_map_tid]
    exact tidNodup
  · -- activeNodup
    exact activeNodup.erase u
  · -- activeIff
    intro v
    by_cases hv : v = u
    · subst hv
      constructor
      · intro hmem
        rw [activeNodup.mem_erase_iff] at hmem
        exact absurd rfl hmem.1
      · rintro ⟨t', ht', huser, hopen⟩
        rw [mem_closeTurn] at ht'
        obtain ⟨t2, ht2, rfl⟩ := ht'
        by_cases h : t2.tid == t.tid
        · simp [h] at hopen
        · simp [h] at huser hopen
          have : t2 = t :=
            openUnique t2 ht2 t htmem (by rw [huser, htuser]) hopen htopen
          rw [this] at h
          simp at h
    · rw [List.mem_erase_of_ne hv, activeIff v]
      constructor
      · rintro ⟨t2, ht2, huser, hopen⟩
        have hne : ¬ (t2.tid == t.tid) = true := by
          intro h
          have h2 : t2 = t := tid_inj tidNodup ht2 htmem (by simpa using h)
          rw [h2] at huser
          exact hv (huser ▸ htuser)
        exact ⟨t2, mem_closeTurn.mpr ⟨t2, ht2, (if_neg hne).symm⟩, huser, hopen⟩
      · rintro ⟨t', ht', huser, hopen⟩
        rw [mem_closeTurn] at ht'
        obtain ⟨t2, ht2, rfl⟩ := ht'
        by_cases h : t2.tid == t.tid
        · simp [h] at hopen
        · simp [h] at huser hopen
          exact ⟨t2, ht2, huser, hopen⟩
  · -- openUnique
    intro t1' h1' t2' h2' huser h1open h2open
    rw [mem_closeTurn] at h1' h2'
    obtain ⟨s1, hs1, rfl⟩ := h1'
    obtain ⟨s2, hs2, rfl⟩ := h2'
    by_cases ha : s1.tid = t.tid
    · simp [ha] at h1open
    · by_cases hb : s2.tid = t.tid
      · simp [hb] at h2open
      · simp only [ha, hb, beq_iff_eq, if_false, if_neg] at h1open h2open huser ⊢
        exact openUnique s1 hs1 s2 hs2 huser h1open h2open
  · -- removals
    intro t' ht'
    rw [mem_closeTurn] at ht'
    obtain ⟨t2, ht2, rfl⟩ := ht'
    rw [removalCount_append, removalCount_append, hextra]
    by_cases h : t2.tid = t.tid
    · have h2 : t2 = t := tid_inj tidNodup ht2 htmem h
      subst h2
      have hz : removalCount acts t2.tid = 0 := by
        simpa [htopen] using removals t2 ht2
      have hone : removalCount [VAction.removedFromSet u t2.tid reason,
          VAction.subscriptionDestroyed t2.tid] t2.tid = 1 := by
        simp [removalCount, isRemoval]
      simp [hz, hone]
    · have hne : (t.tid == t2.tid) = false := by
        simp only [beq_eq_false_iff_ne, ne_eq]
        exact fun hc => h hc.symm
      have hz2 : removalCount [VAction.removedFromSet u t.tid reason,
          VAction.subscriptionDestroyed t.tid] t2.tid = 0 := by
        simp [removalCount, isRemoval, hne]
      simp only [beq_iff_eq, h, if_false, if_neg]
      rw [hz2]
      simpa using removals t2 ht2
  · -- removalFresh
    intro tid htid
    have htid' : st.nextTid ≤ tid := htid
    rw [removalCount_append, removalCount_append, hextra, removalFresh tid htid']
    have hne : (t.tid == tid) = false := by
      simp only [beq_eq_false_iff_ne, ne_eq]
      omega
    simp [removalCount, isRemoval, hne]

end VoiceHandler

namespace VoiceHandler

/-- The invariant holds at session start. -/
theorem inv_init : Inv initVoice [] := by
  constructor <;> simp [initVoice, removalCount]

/-- A single handler step preserves the trace invariant. -/
theorem inv_vstep (cfg : VoiceCfg) (st : VoiceState) (acts : List VAction)
    (e : VEvent) (h : Inv st acts) :
    Inv (vstep cfg st e).1 (acts ++ (vstep cfg st e).2) := by
  cases e with
  | timeoutFire u =>
    cases hf : findOpen st.turns u with
    | none => simpa [vstep, hf] using h
    | some t =>
      have hc := inv_close st acts u t .timeout [] h hf (fun _ => rfl)
      simpa [vstep, hf] using hc
  | decoderEnd u hasAudio transcript displayName =>
    cases hf : findOpen st.turns u with
    | none => simpa [vstep, hf] using h
    | some t =>
      have hc := inv_close st acts u t .decoderEnd
        (endActions cfg u hasAudio transcript displayName) h hf
        (endActions_no_removal cfg u hasAudio transcript displayName)
      simpa [vstep, hf] using hc
  | speakStart u =>
    by_cases h1 : (cfg.botUserId == some u) = true
    · simpa [vstep, h1] using h
    by_cases h2 : u ∈ cfg.bots
    · simpa [vstep, h1, h2] using h
    by_cases h3 : u ∈ st.activeSpeakers
    · simpa [vstep, h1, h2, h3] using h
    have hnot : u ∉ st.activeSpeakers := h3
    obtain ⟨tidBound, tidNodup, activeNodup, activeIff, openUnique,
      removals, removalFresh⟩ := h
    have hstep : vstep cfg st (.speakStart u)
        = ({ activeSpeakers := u :: st.activeSpeakers,
             turns := st.turns ++ [⟨st.nextTid, u, none⟩],
             nextTid := st.nextTid + 1 }, []) := by
      simp [vstep, h1, h2, h3]
    rw [hstep, List.append_nil]
    constructor
    · -- tidBound
      intro t' ht'
      rcases List.mem_append.mp ht' with hmem | hmem
      · exact Nat.lt_succ_of_lt (tidBound t' hmem)
      · simp only [List.mem_singleton] at hmem
        subst hmem
        exact Nat.lt_succ_self _
    · -- tidNodup
      show ((st.turns ++ [(⟨st.nextTid, u, none⟩ : Turn)]).map Turn.tid).Nodup
      rw [List.map_append]
      rw [List.nodup_append]
      refine ⟨tidNodup, by simp, ?_⟩
      intro a ha hb
      simp only [List.map_cons, List.map_nil, List.mem_singleton] at hb
      obtain ⟨t2, ht2, htid⟩ := List.mem_map.mp ha
      have := tidBound t2 ht2
      omega
    · -- activeNodup
      exact List.nodup_cons.mpr ⟨hnot, activeNodup⟩
    · -- activeIff
      intro v
      constructor
      · intro hv
        rcases List.mem_cons.mp hv with rfl | hv2
        · exact ⟨⟨st.nextTid, v, none⟩, List.mem_append_right _ (by simp), rfl, rfl⟩
        · obtain ⟨t2, ht2, hu2, ho2⟩ := (activeIff v).mp hv2
          exact ⟨t2, List.mem_append_left _ ht2, hu2, ho2⟩
      · rintro ⟨t2, ht2, hu2, ho2⟩
        rcases List.mem_append.mp ht2 with hmem | hmem
        · exact List.mem_cons_of_mem _ ((activeIff v).mpr ⟨t2, hmem, hu2, ho2⟩)
        · simp only [List.mem_singleton] at hmem
          subst hmem
          simp only at hu2
          rw [← hu2]
          exact List.mem_cons_self _ _
    · -- openUnique
      intro t1 ht1 t2 ht2 huser h1o h2o
      rcases List.mem_append.mp ht1 with hm1 | hm1 <;>
        rcases List.mem_append.mp ht2 with hm2 | hm2
      · exact openUnique t1 hm1 t2 hm2 huser h1o h2o
      · simp only [List.mem_singleton] at hm2
        subst hm2
        exact absurd ((activeIff u).mpr ⟨t1, hm1, by simpa using huser, h1o⟩) hnot
      · simp only [List.mem_singleton] at hm1
        subst hm1
        exact absurd ((activeIff u).mpr
          ⟨t2, hm2, by simpa using huser.symm, h2o⟩) hnot
      · simp only [List.mem_singleton] at hm1 hm2
        rw [hm1, hm2]
    · -- removals
      intro t' ht'
      rcases List.mem_append.mp ht' with hmem | hmem
      · exact removals t' hmem
      · simp only [List.mem_singleton] at hmem
        subst hmem
        simpa using removalFresh st.nextTid (Nat.le_refl _)
    · -- removalFresh
      intro tid htid
      have htid' : st.nextTid + 1 ≤ tid := htid
      exact removalFresh tid (by omega)

/-- Running any further trace preserves the invariant. -/
theorem inv_runFrom (cfg : VoiceCfg) (evs : List VEvent) :
    ∀ (st : VoiceState) (acts : List VAction), Inv st acts →
      Inv (runFrom cfg st acts evs).1 (runFrom cfg st acts evs).2 := by
  induction evs with
  | nil =>
    intro st acts h
    simpa [runFrom] using h
  | cons e evs ih =>
    intro st acts h
    have hstep := inv_vstep cfg st acts e h
    simpa [runFrom] using ih _ _ hstep

/-- Every reachable state/action log satisfies the invariant. -/
theorem inv_runTrace (cfg : VoiceCfg) (evs : List VEvent) :
    Inv (runTrace cfg evs).1 (runTrace cfg evs).2 :=
  inv_runFrom cfg evs initVoice [] inv_init

end VoiceHandler

namespace VoiceHandler

/-- The fresh-turn branch of the speaking start handler. -/
theorem vstep_speakStart_fresh (cfg : VoiceCfg) (s : VoiceState) (u : Nat)
    (hb1 : ¬ (cfg.botUserId == some u) = true) (hb2 : u ∉ cfg.bots)
    (hact : u ∉ s.activeSpeakers) :
    vstep cfg s (.speakStart u)
      = ({ activeSpeakers := u :: s.activeSpeakers,
           turns := s.turns ++ [⟨s.nextTid, u, none⟩],
           nextTid := s.nextTid + 1 }, []) := by
  simp [vstep, hb1, hb2, hact]

/-- find? skips a prefix in which nothing matches. -/
theorem find?_append_of_none {α : Type} {p : α → Bool} {l1 l2 : List α}
    (h : l1.find? p = none) : (l1 ++ l2).find? p = l2.find? p := by
  induction l1 with
  | nil => simp
  | cons a l ih =>
    cases hpa : p a with
    | true => simp [List.find?_cons, hpa] at h
    | false =>
      rw [List.find?_cons, hpa] at h
      rw [List.cons_append, List.find?_cons, hpa]
      exact ih h

end VoiceHandler

/-- Claim C1: over every event trace of the voice-receive handlers, every
closed capture turn has had its participant removed from the
SpeakingSet (activeSpeakers) exactly once — by the decoder-end path or
by the timeout path, never both — every still-live turn has had no
removal, and a participant all of whose turns are over is not left in
the set. -/
theorem voice_removal_exactly_once (cfg : VoiceCfg) (evs : List VEvent) :
    (∀ t ∈ (runTrace cfg evs).1.turns,
      removalCount (runTrace cfg evs).2 t.tid
        = if t.closedBy.isSome then 1 else 0) ∧
    (∀ u : Nat, (∀ t ∈ (runTrace cfg evs).1.turns,
        t.user = u → t.closedBy.isSome) →
      u ∉ (runTrace cfg evs).1.activeSpeakers) := by
  have h := inv_runTrace cfg evs
  refine ⟨h.removals, ?_⟩
  intro u hclosed hmem
  obtain ⟨t, ht, hu, ho⟩ := (h.activeIff u).mp hmem
  have hc := hclosed t ht hu
  rw [ho] at hc
  simp at hc

/-- Witness for C1 at a concrete trace: user 1 is timed out once, speaks
again and is closed by decoder end; every turn counts exactly one
removal and user 2, who never had a turn, is not in the set. -/
theorem voice_removal_exactly_once_witness :
    (∀ t ∈ (runTrace ⟨some 99, [], some 1, ["yeah"]⟩
        [.speakStart 1, .timeoutFire 1, .speakStart 1,
         .decoderEnd 1 true (some "hello") (some "Alice")]).1.turns,
      removalCount (runTrace ⟨some 99, [], some 1, ["yeah"]⟩
        [.speakStart 1, .timeoutFire 1, .speakStart 1,
         .decoderEnd 1 true (some "hello") (some "Alice")]).2 t.tid
        = if t.closedBy.isSome then 1 else 0) ∧
    2 ∉ (runTrace ⟨some 99, [], some 1, ["yeah"]⟩
        [.speakStart 1, .timeoutFire 1, .speakStart 1,
         .decoderEnd 1 true (some "hello") (some "Alice")]).1.activeSpeakers := by
  have h := voice_removal_exactly_once ⟨some 99, [], some 1, ["yeah"]⟩
    [.speakStart 1, .timeoutFire 1, .speakStart 1,
     .decoderEnd 1 true (some "hello") (some "Alice")]
  exact ⟨h.1, h.2 2 (by decide)⟩

/-- Claim C4: over every event trace, no two live capture turns for the same
participant exist simultaneously, and a start-speaking event for a
participant already in the SpeakingSet leaves the state unchanged and
emits nothing (the duplicate start is ignored). -/
theorem voice_no_concurrent_turns (cfg : VoiceCfg) (evs : List VEvent) :
    (∀ t1 ∈ (runTrace cfg evs).1.turns, ∀ t2 ∈ (runTrace cfg evs).1.turns,
      t1.user = t2.user → t1.closedBy = none → t2.closedBy = none → t1 = t2) ∧
    (∀ u : Nat, u ∈ (runTrace cfg evs).1.activeSpeakers →
      vstep cfg (runTrace cfg evs).1 (.speakStart u)
        = ((runTrace cfg evs).1, [])) := by
  have h := inv_runTrace cfg evs
  refine ⟨h.openUnique, ?_⟩
  intro u hu
  by_cases h1 : (cfg.botUserId == some u) = true
  · simp [vstep, h1]
  · by_cases h2 : u ∈ cfg.bots
    · simp [vstep, h1, h2]
    · simp [vstep, h1, h2, hu]

/-- Witness for C4 at a concrete trace: with user 1 mid-turn, a second
start event for user 1 is a no-op, and the single live turn is unique. -/
theorem voice_no_concurrent_turns_witness :
    (∀ t1 ∈ (runTrace ⟨some 99, [], none, []⟩ [.speakStart 1]).1.turns,
      ∀ t2 ∈ (runTrace ⟨some 99, [], none, []⟩ [.speakStart 1]).1.turns,
      t1.user = t2.user → t1.closedBy = none → t2.closedBy = none → t1 = t2) ∧
    vstep ⟨some 99, [], none, []⟩
        (runTrace ⟨some 99, [], none, []⟩ [.speakStart 1]).1 (.speakStart 1)
      = ((runTrace ⟨some 99, [], none, []⟩ [.speakStart 1]).1, []) := by
  have h := voice_no_concurrent_turns ⟨some 99, [], none, []⟩ [.speakStart 1]
  exact ⟨h.1, h.2 1 (by decide)⟩

/-- Claim C2: a capture pipeline whose decode stream never signals end-of-turn
is force-closed by the PIPELINE_MAX_MS = 45000 ms timeout: the timeout
step emits no transcript append, removes the participant from the
SpeakingSet, leaves no live turn for them, and an immediately following
start-speaking event for the same participant opens a fresh turn. -/
theorem voice_timeout_force_close (cfg : VoiceCfg) (evs : List VEvent)
    (u : Nat) (t : Turn)
    (hopen : findOpen (runTrace cfg evs).1.turns u = some t)
    (hbot1 : cfg.botUserId ≠ some u) (hbot2 : u ∉ cfg.bots) :
    PIPELINE_MAX_MS = 45000 ∧
    (∀ sp tx v, VAction.appended sp tx v
      ∉ (vstep cfg (runTrace cfg evs).1 (.timeoutFire u)).2) ∧
    u ∉ (vstep cfg (runTrace cfg evs).1 (.timeoutFire u)).1.activeSpeakers ∧
    findOpen (vstep cfg (runTrace cfg evs).1 (.timeoutFire u)).1.turns u
      = none ∧
    u ∈ (vstep cfg (vstep cfg (runTrace cfg evs).1 (.timeoutFire u)).1
          (.speakStart u)).1.activeSpeakers ∧
    findOpen (vstep cfg (vstep cfg (runTrace cfg evs).1 (.timeoutFire u)).1
          (.speakStart u)).1.turns u
      = some ⟨(vstep cfg (runTrace cfg evs).1 (.timeoutFire u)).1.nextTid,
              u, none⟩ := by
  have h := inv_runTrace cfg evs
  have h2 := inv_vstep cfg (runTrace cfg evs).1 (runTrace cfg evs).2
    (.timeoutFire u) h
  have hstep : vstep cfg (runTrace cfg evs).1 (.timeoutFire u)
      = ({ (runTrace cfg evs).1 with
            activeSpeakers := (runTrace cfg evs).1.activeSpeakers.erase u,
            turns := closeTurn (runTrace cfg evs).1.turns t.tid .timeout },
         [.removedFromSet u t.tid .timeout, .subscriptionDestroyed t.tid]) := by
    simp [vstep, hopen]
  have hnoact :
      u ∉ (vstep cfg (runTrace cfg evs).1 (.timeoutFire u)).1.activeSpeakers := by
    rw [hstep]
    intro hmem
    rw [h.activeNodup.mem_erase_iff] at hmem
    exact hmem.1 rfl
  have hnone :
      findOpen (vstep cfg (runTrace cfg evs).1 (.timeoutFire u)).1.turns u
        = none := by
    apply List.find?_eq_none.mpr
    intro x hx hpx
    have hopenx : x.user = u ∧ x.closedBy = none := by simpa using hpx
    exact hnoact ((h2.activeIff u).mpr ⟨x, hx, hopenx.1, hopenx.2⟩)
  have hb1 : ¬ (cfg.botUserId == some u) = true := by simpa using hbot1
  have hstep2 := vstep_speakStart_fresh cfg
    (vstep cfg (runTrace cfg evs).1 (.timeoutFire u)).1 u hb1 hbot2 hnoact
  refine ⟨rfl, ?_, hnoact, hnone, ?_, ?_⟩
  · intro sp tx v hmem
    rw [hstep] at hmem
    simp at hmem
  · rw [hstep2]
    exact List.mem_cons_self _ _
  · rw [hstep2]
    show List.find? _ (_ ++ _) = _
    rw [find?_append_of_none hnone]
    simp [findOpen]

/-- Witness for C2 at a concrete trace: user 1's pipeline never ends and
is timed out; no append is emitted, user 1 leaves the set, and a fresh
turn opens on the next start event. -/
theorem voice_timeout_force_close_witness :
    PIPELINE_MAX_MS = 45000 ∧
    (∀ sp tx v, VAction.appended sp tx v
      ∉ (vstep ⟨some 99, [], none, []⟩
          (runTrace ⟨some 99, [], none, []⟩ [.speakStart 1]).1
          (.timeoutFire 1)).2) ∧
    1 ∉ (vstep ⟨some 99, [], none, []⟩
          (runTrace ⟨some 99, [], none, []⟩ [.speakStart 1]).1
          (.timeoutFire 1)).1.activeSpeakers ∧
    findOpen (vstep ⟨some 99, [], none, []⟩
          (runTrace ⟨some 99, [], none, []⟩ [.speakStart 1]).1
          (.timeoutFire 1)).1.turns 1 = none ∧
    1 ∈ (vstep ⟨some 99, [], none, []⟩
          (vstep ⟨some 99, [], none, []⟩
            (runTrace ⟨some 99, [], none, []⟩ [.speakStart 1]).1
            (.timeoutFire 1)).1 (.speakStart 1)).1.activeSpeakers ∧
    findOpen (vstep ⟨some 99, [], none, []⟩
          (vstep ⟨some 99, [], none, []⟩
            (runTrace ⟨some 99, [], none, []⟩ [.speakStart 1]).1
            (.timeoutFire 1)).1 (.speakStart 1)).1.turns 1
      = some ⟨(vstep ⟨some 99, [], none, []⟩
            (runTrace ⟨some 99, [], none, []⟩ [.speakStart 1]).1
            (.timeoutFire 1)).1.nextTid, 1, none⟩ :=
  voice_timeout_force_close ⟨some 99, [], none, []⟩ [.speakStart 1] 1
    ⟨0, 1, none⟩ (by decide) (by decide) (by decide)

/-- Claim C10: when a live capture turn of the configured host ends with a
non-empty transcription, the director-suggestion flow is fired exactly
once if the normalized text (trim, lowercase, trailing [.!?] stripped)
is exactly one of the configured trigger phrases, and not at all
otherwise — a near-match like the phrase followed by extra words does
not fire it; in both cases exactly one entry is appended, labelled
HOST. -/
theorem voice_trigger_exact_match (cfg : VoiceCfg) (st : VoiceState)
    (u : Nat) (t : Turn) (text : String) (displayName : Option String)
    (hopen : findOpen st.turns u = some t)
    (hhost : cfg.hostUserId = some u) (htext : (text == "") = false) :
    ((vstep cfg st (.decoderEnd u true (some text) displayName)).2.filter
        (· == VAction.directorTriggered u)).length
      = (if cfg.triggerPhrases.contains (normalizeTrigger text) then 1 else 0) ∧
    ((vstep cfg st (.decoderEnd u true (some text) displayName)).2.filter
        (· == VAction.appended "HOST" text u)).length = 1 := by
  have hstep : (vstep cfg st (.decoderEnd u true (some text) displayName)).2
      = [VAction.removedFromSet u t.tid .decoderEnd,
         .subscriptionDestroyed t.tid]
        ++ endActions cfg u true (some text) displayName := by
    simp [vstep, hopen]
  rw [hstep]
  have hhostb : (cfg.hostUserId == some u) = true := by simp [hhost]
  by_cases hin : cfg.triggerPhrases.contains (normalizeTrigger text)
  · have hmem : normalizeTrigger text ∈ cfg.triggerPhrases := by
      simpa using hin
    have hnil : cfg.triggerPhrases ≠ [] := List.ne_nil_of_mem hmem
    have hne : cfg.triggerPhrases.isEmpty = false := by
      simpa [List.isEmpty_iff] using hnil
    have hend : endActions cfg u true (some text) displayName
        = [.appended "HOST" text u, .directorTriggered u] := by
      simp [endActions, htext, hhostb, hne, hmem]
    rw [hend]
    constructor
    · simp [hmem, List.filter_cons, List.filter_nil]
    · simp [List.filter_cons, List.filter_nil]
  · have hinb : cfg.triggerPhrases.contains (normalizeTrigger text) = false := by
      simpa using hin
    have hmemn : normalizeTrigger text ∉ cfg.triggerPhrases := by
      simpa using hin
    have hend : endActions cfg u true (some text) displayName
        = [.appended "HOST" text u] := by
      simp [endActions, htext, hhostb, hmemn]
    rw [hend]
    constructor
    · simp [hmemn, List.filter_cons, List.filter_nil]
    · simp [List.filter_cons, List.filter_nil]

/-- Witness for C10 at a concrete input: with trigger phrases
["yeah", "okay", "go ahead"], the host saying "Okay." fires the director
flow exactly once, while the near-match "okay then" does not fire it;
both turns append exactly one HOST entry. -/
theorem voice_trigger_exact_match_witness :
    ((vstep ⟨some 99, [], some 1, ["yeah", "okay", "go ahead"]⟩
        (runTrace ⟨some 99, [], some 1, ["yeah", "okay", "go ahead"]⟩
          [.speakStart 1]).1
        (.decoderEnd 1 true (some "Okay.") (some "Alice"))).2.filter
        (· == VAction.directorTriggered 1)).length = 1 ∧
    ((vstep ⟨some 99, [], some 1, ["yeah", "okay", "go ahead"]⟩
        (runTrace ⟨some 99, [], some 1, ["yeah", "okay", "go ahead"]⟩
          [.speakStart 1]).1
        (.decoderEnd 1 true (some "okay then") (some "Alice"))).2.filter
        (· == VAction.directorTriggered 1)).length = 0 ∧
    ((vstep ⟨some 99, [], some 1, ["yeah", "okay", "go ahead"]⟩
        (runTrace ⟨some 99, [], some 1, ["yeah", "okay", "go ahead"]⟩
          [.speakStart 1]).1
        (.decoderEnd 1 true (some "okay then") (some "Alice"))).2.filter
        (· == VAction.appended "HOST" "okay then" 1)).length = 1 := by
  have h1 := voice_trigger_exact_match
    ⟨some 99, [], some 1, ["yeah", "okay", "go ahead"]⟩
    (runTrace ⟨some 99, [], some 1, ["yeah", "okay", "go ahead"]⟩
      [.speakStart 1]).1
    1 ⟨0, 1, none⟩ "Okay." (some "Alice") (by decide) rfl (by decide)
  have h2 := voice_trigger_exact_match
    ⟨some 99, [], some 1, ["yeah", "okay", "go ahead"]⟩
    (runTrace ⟨some 99, [], some 1, ["yeah", "okay", "go ahead"]⟩
      [.speakStart 1]).1
    1 ⟨0, 1, none⟩ "okay then" (some "Alice") (by decide) rfl (by decide)
  refine ⟨?_, ?_, h2.2⟩
  · rw [h1.1]
    decide
  · rw [h2.1]
    decide

/-- Claim C3: playback gating of the TTS queue: a wake of processQueue that
sees someone speaking leaves the queue untouched (the head item is not
dequeued or played) and only reschedules a poll; the grace-callback
re-check does the same when someone started speaking during the wait; an
item is ever played only as the head of the queue, only by the armed
SILENCE_GRACE_MS callback running with the registry silent at the
re-check; and that callback is only armed by a wake that saw the
registry silent.  POLL_MS is 400 and SILENCE_GRACE_MS is 500. -/
theorem tts_playback_gated_on_silence :
    POLL_MS = 400 ∧ SILENCE_GRACE_MS = 500 ∧
    (∀ s : TTSState, (processQueue true s).1.queue = s.queue ∧
      ∀ it, TAction.played it ∉ (processQueue true s).2) ∧
    (∀ (s : TTSState) (ok fe : Bool),
      (graceCallback true ok fe s).1.queue = s.queue ∧
      ∀ it, TAction.played it ∉ (graceCallback true ok fe s).2) ∧
    (∀ (s : TTSState) (e : TEvent) (it : QItem),
      TAction.played it ∈ (tstep s e).2 →
      s.gracePending = true ∧ s.queue.head? = some it ∧
      ∃ ok fe, e = .grace false ok fe) ∧
    (∀ (s : TTSState) (spk : Bool), s.gracePending = false →
      (tstep s (.wake spk)).1.gracePending = true → spk = false) := by
  refine ⟨rfl, rfl, ?_, ?_, ?_, ?_⟩
  · intro s
    constructor
    · unfold processQueue
      split_ifs <;> rfl
    · intro it
      unfold processQueue
      split_ifs <;> simp
  · intro s ok fe
    constructor
    · simp [graceCallback]
    · intro it
      simp [graceCallback]
  · intro s e it hmem
    cases e with
    | wake spk =>
      simp only [tstep, processQueue] at hmem
      split_ifs at hmem <;> simp at hmem
    | grace spk ok fe =>
      by_cases hg : s.gracePending
      · simp only [tstep, hg, if_true] at hmem
        cases spk with
        | true => simp [graceCallback] at hmem
        | false =>
          refine ⟨hg, ?_, ok, fe, rfl⟩
          cases hq : s.queue with
          | nil => simp [graceCallback, hq] at hmem
          | cons it0 rest =>
            simp only [graceCallback, Bool.false_eq_true, if_false, hq] at hmem
            cases it0 with
            | speak tx vid =>
              cases ok with
              | true =>
                simp at hmem
                simp [hmem]
              | false => simp at hmem
            | mp3 fp =>
              cases fe with
              | true =>
                simp at hmem
                simp [hmem]
              | false => simp at hmem
      · simp only [tstep, hg, if_false] at hmem
        simp at hmem
  · intro s spk hzero
    cases spk with
    | false => intro _; rfl
    | true =>
      intro harmed
      have : (processQueue true s).1.gracePending = false := by
        unfold processQueue
        split_ifs with h1 h2 h3
        · exact hzero
        · exact hzero
        · exact hzero
        · exact absurd rfl h3
      rw [show tstep s (.wake true) = processQueue true s from rfl] at harmed
      rw [this] at harmed
      exact harmed.symm

/-- Witness for C3 at a concrete input: with an mp3 item queued, a wake
while someone speaks leaves the queue untouched and plays nothing, and a
playback step is traced back to an armed grace callback firing on a
silent re-check with the played item at the head of the queue. -/
theorem tts_playback_gated_on_silence_witness :
    (processQueue true ⟨true, true, [QItem.mp3 "a"], false⟩).1.queue
      = [QItem.mp3 "a"] ∧
    TAction.played (QItem.mp3 "a")
      ∉ (processQueue true ⟨true, true, [QItem.mp3 "a"], false⟩).2 ∧
    ((⟨true, true, [QItem.mp3 "a"], true⟩ : TTSState).gracePending = true ∧
     (⟨true, true, [QItem.mp3 "a"], true⟩ : TTSState).queue.head?
       = some (QItem.mp3 "a") ∧
     ∃ ok fe, (TEvent.grace false true true) = TEvent.grace false ok fe) := by
  have h := tts_playback_gated_on_silence
  refine ⟨?_, ?_, ?_⟩
  · exact (h.2.2.1 ⟨true, true, [QItem.mp3 "a"], false⟩).1
  · exact (h.2.2.1 ⟨true, true, [QItem.mp3 "a"], false⟩).2 (QItem.mp3 "a")
  · exact h.2.2.2.2.1 ⟨true, true, [QItem.mp3 "a"], true⟩
      (.grace false true true) (QItem.mp3 "a") (by decide)
